import Mathlib

/-!
Verification of the review-booster document store (`server.js`).

The development shallow-embeds the store layer of the server: path
resolution for seed files and client documents, the seed loader with its
fallback chain, the client repository operations, the review-list
operations, and the directory listing.  Paths are modelled at two levels:
as segment lists (what the filesystem sees after normalization) and as
rendered POSIX strings (what the JavaScript `startsWith` security check
actually inspects).
-/

/-- Splits a list of characters at a separator, accumulating the current
segment in reverse.  Mirrors splitting a POSIX path string on `/`. -/
def splitAux (sep : Char) : List Char → List Char → List String
  | [], cur => [String.mk cur.reverse]
  | c :: cs, cur =>
    if c = sep then String.mk cur.reverse :: splitAux sep cs []
    else splitAux sep cs (c :: cur)

/-- Splits a string on the `/` separator, as `String.split` or the
segment decomposition done by Node `path.join` would. -/
def splitSlash (s : String) : List String :=
  splitAux '/' s.data []

/-- One step of POSIX path normalization over a segment stack: empty
segments and `.` are dropped, `..` pops the stack (at the root of an
absolute path a surplus `..` is discarded, as Node `path.join` does),
and any other segment is pushed. -/
def normStep (acc : List String) (s : String) : List String :=
  if s = "" ∨ s = "." then acc
  else if s = ".." then acc.dropLast
  else acc ++ [s]

/-- Normalizes the segment list of an absolute path, resolving `.` and
`..` and collapsing repeated separators, as Node `path.join` does after
concatenation. -/
def normalizeSegs (l : List String) : List String :=
  l.foldl normStep []

/-- Renders an absolute path from its segment list:
`["a", "b"]` becomes `"/a/b"`. -/
def renderAbs (segs : List String) : String :=
  segs.foldl (fun acc s => acc ++ "/" ++ s) ""

/-- JavaScript `String.prototype.startsWith`, modelled on the character
lists of the two strings. -/
def jsStartsWith (s p : String) : Bool :=
  p.data.isPrefixOf s.data

/-- The segments of `__dirname`, the directory holding `server.js`.  It
is a constant of the deployment environment; it is modelled concretely
(the analysis nowhere depends on its particular letters). -/
def dirnameSegs : List String := ["srv", "app"]

/-- The segments of `DATA_DIR = path.join(__dirname, "data")`. -/
def dataDirSegs : List String := dirnameSegs ++ ["data"]

/-- The string `DATA_DIR` against which the security check compares. -/
def dataDirStr : String := renderAbs dataDirSegs

/-- `path.join(base, name)` for an absolute `base`, at segment level:
concatenate the segments and normalize. -/
def pathJoinSegs (base : List String) (name : String) : List String :=
  normalizeSegs (base ++ splitSlash name)

/-- Whether a resolved (normalized) path lies inside the data root:
its segment list extends the data-root segments. -/
def withinDataRoot (segs : List String) : Bool :=
  dataDirSegs.isPrefixOf segs

/-- `getClientDataPath` (`server.js` line 40): the path for a client
document, `path.join(DATA_DIR, clientId + ".json")`, produced with no
containment check, here at segment level. -/
def getClientDataPathSegs (clientId : String) : List String :=
  pathJoinSegs dataDirSegs (clientId ++ ".json")

/-- `getClientDataPath` rendered as the string the server uses. -/
def getClientDataPath (clientId : String) : String :=
  renderAbs (getClientDataPathSegs clientId)

/-- The parse outcome of one JSON file in the data directory, as far as
the seed loader inspects it: the file is unreadable as JSON (`readJson`
throws), or it parses and its `reviews` field is an array (`some l`) or
is absent / not an array (`none`). -/
inductive SeedFile where
  | parseFail : SeedFile
  | parsed : Option (List String) → SeedFile
deriving DecidableEq

/-- The files visible to the seed loader, keyed by rendered path string;
`none` means the path does not exist (`fs.pathExists` is false). -/
structure SeedFS where
  lookup : String → Option SeedFile

/-- The canonical default seed file name. -/
def defaultSeedName : String := "sample-reviews-200.json"

/-- `SAMPLE_REVIEWS_FILE = path.join(DATA_DIR, "sample-reviews-200.json")`. -/
def sampleReviewsPath : String :=
  renderAbs (pathJoinSegs dataDirSegs defaultSeedName)

/-- The hard-coded fallback list returned from the `catch` branch of
`getReviewsFromFile`. -/
def hardFallback : List String := ["Excellent service!", "Very professional."]

/-- The sentinel list returned when the security check blocks a name. -/
def securitySentinel : List String := ["Security warning: Invalid file path."]

/-- The effective file name: `undefined` (absent) takes the default via
the parameter default, and the empty string is replaced by the default
by the explicit `if (!fileName)` branch. -/
def effectiveSeedName : Option String → String
  | none => defaultSeedName
  | some s => if s = "" then defaultSeedName else s

/-- The rendered path `filePath = path.join(DATA_DIR, fileName)` that
`getReviewsFromFile` builds for a given argument. -/
def seedPath (fileName? : Option String) : String :=
  renderAbs (pathJoinSegs dataDirSegs (effectiveSeedName fileName?))

/-- The security check `filePath.startsWith(DATA_DIR)` of
`getReviewsFromFile` (`server.js` line 69). -/
def seedCheck (fileName? : Option String) : Bool :=
  jsStartsWith (seedPath fileName?) dataDirStr

/-- `getReviewsFromFile` (`server.js` lines 60-97).  The named file is
consulted when the `startsWith` check passes; a file that exists and
parses with a `reviews` array is returned as is (even when empty); a
file that exists but fails to parse throws inside the `try`, landing
directly in the `catch` with the hard fallback; a missing file or one
without a `reviews` array falls through to the default sample file,
whose `reviews` value is returned when truthy (a JavaScript array is
truthy even when empty), replaced by a one-element list when absent,
and by the hard fallback when the default file cannot be read. -/
def getReviewsFromFile (fs : SeedFS) (fileName? : Option String) : List String :=
  if seedCheck fileName? then
    match fs.lookup (seedPath fileName?) with
    | some (.parsed (some l)) => l
    | some .parseFail => hardFallback
    | _ =>
      match fs.lookup sampleReviewsPath with
      | some (.parsed (some l)) => l
      | some (.parsed none) => ["Excellent service!"]
      | _ => hardFallback
  else
    securitySentinel

/-- The detail fields of a client document, i.e. the validated body of a
create or update request minus `clientId` and `sourceReviewFile`.  The
Joi schemas require every field except `logoUrl`; `none` for `logoUrl`
models an absent key, which an object spread leaves untouched. -/
structure Details where
  clientName : String
  googleReviewLink : String
  logoUrl : Option String
  primaryColor : String
  secondaryColor : String
deriving DecidableEq

/-- A persisted client document.  `reviews = none` models a document
whose JSON lacks the `reviews` key (the code guards every use with
`data.reviews || []`). -/
structure ClientDoc where
  clientId : String
  details : Details
  reviews : Option (List String)
deriving DecidableEq

/-- The persisted store: the parse result of `getClientData` for each
client id.  `none` covers both a missing file and an unreadable one,
exactly as `getClientData` returns `null` in both cases. -/
abbrev Store : Type := String → Option ClientDoc

/-- Writing one client document, as `writeClientData` persists it. -/
def storeWrite (st : Store) (clientId : String) (doc : ClientDoc) : Store :=
  fun k => if k = clientId then some doc else st k

/-- `POST /api/client` (`server.js` lines 239-262): refuse with 409 when
a document already exists, otherwise seed the review list, force
`clientId`, persist, and answer 201 with the new document.  The body
destructuring strips `clientId` and `sourceReviewFile` from the stored
details.  Disk writes are modelled as succeeding (the 500 branch for a
failed write is outside the store model). -/
def createClient (fs : SeedFS) (st : Store) (clientId : String)
    (d : Details) (sourceReviewFile : Option String) :
    (Nat × Option ClientDoc) × Store :=
  match st clientId with
  | some _ => ((409, none), st)
  | none =>
    let doc : ClientDoc :=
      { clientId := clientId, details := d,
        reviews := some (getReviewsFromFile fs sourceReviewFile) }
    ((201, some doc), storeWrite st clientId doc)

/-- The object-spread merge `{...data, ...req.body}` restricted to the
detail fields: required body fields overwrite, an absent `logoUrl` key
leaves the stored value in place. -/
def mergeDetails (old body : Details) : Details :=
  { clientName := body.clientName,
    googleReviewLink := body.googleReviewLink,
    logoUrl := match body.logoUrl with
      | some v => some v
      | none => old.logoUrl,
    primaryColor := body.primaryColor,
    secondaryColor := body.secondaryColor }

/-- `PUT /api/client/:clientId` (`server.js` lines 285-309): a missing
document answers with status 4404 (the literal written at line 293) and
no write; otherwise the body is spread over the document, `reviews` is
kept, `clientId` is re-forced, and the merge is persisted. -/
def updateClient (st : Store) (clientId : String) (body : Details) :
    (Nat × Option ClientDoc) × Store :=
  match st clientId with
  | none => ((4404, none), st)
  | some data =>
    let updated : ClientDoc :=
      { clientId := clientId,
        details := mergeDetails data.details body,
        reviews := data.reviews }
    ((200, some updated), storeWrite st clientId updated)

/-- `GET /api/client/:clientId/reviews` (`server.js` lines 341-350):
404 for a missing client, otherwise `data.reviews || []`. -/
def listReviews (st : Store) (clientId : String) : Nat × Option (List String) :=
  match st clientId with
  | none => (404, none)
  | some data => (200, some (data.reviews.getD []))

/-- `POST /api/client/:clientId/reviews` (`server.js` lines 376-397):
404 for a missing client, otherwise the review is prepended with
`[review, ...(data.reviews || [])]` and the document written back. -/
def addReview (st : Store) (clientId : String) (review : String) :
    (Nat × Option String) × Store :=
  match st clientId with
  | none => ((404, none), st)
  | some data =>
    let newDoc : ClientDoc :=
      { data with reviews := some (review :: data.reviews.getD []) }
    ((201, some review), storeWrite st clientId newDoc)

/-- JavaScript `Array.prototype.indexOf` returning `none` for `-1`:
the index of the first occurrence of `x`. -/
def jsIndexOf (l : List String) (x : String) : Option Nat :=
  match l with
  | [] => none
  | a :: as => if a = x then some 0 else (jsIndexOf as x).map (· + 1)

/-- `Array.prototype.splice(i, 1)`: remove the element at index `i`. -/
def spliceOne (l : List String) (i : Nat) : List String :=
  match l, i with
  | [], _ => []
  | _ :: as, 0 => as
  | a :: as, n + 1 => a :: spliceOne as n

/-- `DELETE /api/client/:clientId/reviews` (`server.js` lines 403-430):
a falsy (empty or absent) review text answers 400 before any lookup;
then a missing client answers 404; then `indexOf` locates the text in
`data.reviews || []`, answering 404 when absent, and otherwise the
first occurrence is spliced out and the document written back. -/
def deleteReview (st : Store) (clientId : String) (review : String) :
    (Nat × String) × Store :=
  if review = "" then ((400, "Review text is required."), st)
  else
    match st clientId with
    | none => ((404, "Client not found."), st)
    | some data =>
      match jsIndexOf (data.reviews.getD []) review with
      | none => ((404, "Review not found."), st)
      | some i =>
        let newDoc : ClientDoc :=
          { data with reviews := some (spliceOne (data.reviews.getD []) i) }
        ((200, "Review deleted."), storeWrite st clientId newDoc)

/-- `GET /api/client/:clientId/random-review` (`server.js` lines
356-370): 404 when the client is missing, has no `reviews` field, or
has an empty list; otherwise the element at
`Math.floor(Math.random() * length)` is returned.  The random double is
a rational `num / den` in `[0, 1)`, so the floored product is the
natural number `num * length / den`; the pair of naturals stands for
that draw. -/
def randomReview (st : Store) (clientId : String) (num den : Nat) :
    Nat × Option String :=
  match st clientId with
  | none => (404, none)
  | some data =>
    match data.reviews with
    | none => (404, none)
    | some l =>
      if l.length = 0 then (404, none)
      else (200, some (l.getD (num * l.length / den) ""))

/-- One file of the data directory, as far as the client listing reads
it: unreadable JSON, or a parsed object with the values the listing
inspects (`clientId`, `clientName`), `none` standing for an absent key. -/
inductive DirEntry where
  | invalidJson : DirEntry
  | jsonDoc : Option String → Option String → DirEntry
deriving DecidableEq

/-- The data directory, as `fs.readdir` plus per-file reads expose it:
file names paired with parse results. -/
abbrev Dir : Type := List (String × DirEntry)

/-- Scans a character list left to right and removes the first
occurrence of the pattern; the list is returned unchanged when the
pattern never occurs. -/
def stripOnceAux (pat : List Char) : List Char → List Char
  | [] => []
  | c :: cs =>
    if pat.isPrefixOf (c :: cs) then (c :: cs).drop pat.length
    else c :: stripOnceAux pat cs

/-- JavaScript `file.replace(".json", "")`: removal of the first
occurrence of `".json"`. -/
def stripJsonOnce (s : String) : String :=
  String.mk (stripOnceAux ".json".data s.data)

/-- JavaScript `file.endsWith(".json")` on the character lists. -/
def jsEndsWithJson (s : String) : Bool :=
  ".json".data.isSuffixOf s.data

/-- `getClientData` as the listing uses it: read the file named
`clientId + ".json"` and produce its `clientId` and `clientName` values,
or `null` when the file is missing or unreadable. -/
def getClientDataDir (dir : Dir) (clientId : String) :
    Option (Option String × Option String) :=
  match dir.find? (fun e => e.1 == clientId ++ ".json") with
  | some (_, .jsonDoc c n) => some (c, n)
  | _ => none

/-- `GET /api/clients` (`server.js` lines 204-232): every file name
ending in `".json"` is turned into a candidate id by removing the first
occurrence of `".json"`, re-read through `getClientData`, and kept when
the parse succeeded and both `clientId` and `clientName` are truthy
(for strings: non-empty); all other files contribute nothing. -/
def listClients (dir : Dir) : List (String × String) :=
  (dir.filter (fun e => jsEndsWithJson e.1)).filterMap (fun e =>
    match getClientDataDir dir (stripJsonOnce e.1) with
    | some (some c, some n) =>
      if c = "" ∨ n = "" then none else some (c, n)
    | _ => none)

/-- Modelled from the spec: the listing the claim describes, one
`{clientId, clientName}` summary for every file that parses as JSON and
carries both fields, in directory order. -/
def listClientsSpec (dir : Dir) : List (String × String) :=
  (dir.filter (fun e => jsEndsWithJson e.1)).filterMap (fun e =>
    match e.2 with
    | .jsonDoc (some c) (some n) => some (c, n)
    | _ => none)

/-- The listing rule applied to the own content of each file: what
`listClients` computes once the round trip through file names is
resolved.  Differs from `listClientsSpec` only in the truthiness test
on the two field values. -/
def listClientsTruthy (dir : Dir) : List (String × String) :=
  (dir.filter (fun e => jsEndsWithJson e.1)).filterMap (fun e =>
    match e.2 with
    | .jsonDoc (some c) (some n) =>
      if c = "" ∨ n = "" then none else some (c, n)
    | _ => none)

/-! ### Helper lemmas -/

theorem foldl_normStep_clean :
    ∀ (segs : List String) (acc : List String),
      (∀ s ∈ segs, s ≠ "" ∧ s ≠ "." ∧ s ≠ "..") →
      List.foldl normStep acc segs = acc ++ segs := by
  intro segs
  induction segs with
  | nil => intro acc _; simp
  | cons s rest ih =>
    intro acc h
    have hs := h s (List.mem_cons_self s rest)
    have hrest : ∀ x ∈ rest, x ≠ "" ∧ x ≠ "." ∧ x ≠ ".." :=
      fun x hx => h x (List.mem_cons_of_mem s hx)
    have hstep : normStep acc s = acc ++ [s] := by
      unfold normStep
      rw [if_neg, if_neg hs.2.2]
      rintro (h1 | h2)
      · exact hs.1 h1
      · exact hs.2.1 h2
    simp only [List.foldl_cons, hstep, ih (acc ++ [s]) hrest,
      List.append_assoc, List.singleton_append]

theorem foldl_renderStep (b : List String) :
    ∀ acc : String,
      List.foldl (fun acc s => acc ++ "/" ++ s) acc b = acc ++ renderAbs b := by
  induction b with
  | nil => intro acc; simp [renderAbs]
  | cons s rest ih =>
    intro acc
    rw [List.foldl_cons, ih (acc ++ "/" ++ s)]
    have h1 : renderAbs (s :: rest) = ("" ++ "/" ++ s) ++ renderAbs rest :=
      ih ("" ++ "/" ++ s)
    rw [h1, String.empty_append]
    simp [String.append_assoc]

theorem renderAbs_append (a b : List String) :
    renderAbs (a ++ b) = renderAbs a ++ renderAbs b := by
  unfold renderAbs
  rw [List.foldl_append]
  exact foldl_renderStep b _

theorem isPrefixOf_append_self {α : Type} [BEq α] [LawfulBEq α] :
    ∀ (l t : List α), List.isPrefixOf l (l ++ t) = true := by
  intro l t
  induction l with
  | nil => simp [List.isPrefixOf]
  | cons a as ih => simp [List.isPrefixOf, ih]

theorem jsStartsWith_append (a b : String) :
    jsStartsWith (a ++ b) a = true := by
  unfold jsStartsWith
  rw [String.data_append]
  exact isPrefixOf_append_self a.data b.data

theorem jsIndexOf_of_not_mem :
    ∀ (l : List String) (x : String), x ∉ l → jsIndexOf l x = none := by
  intro l x
  induction l with
  | nil => intro _; rfl
  | cons a as ih =>
    intro h
    have hax : ¬a = x := fun he => h (he ▸ List.mem_cons_self a as)
    have has : x ∉ as := fun hm => h (List.mem_cons_of_mem a hm)
    simp [jsIndexOf, hax, ih has]

theorem jsIndexOf_first :
    ∀ (p : List String) (x : String) (q : List String), x ∉ p →
      jsIndexOf (p ++ x :: q) x = some p.length := by
  intro p x
  induction p with
  | nil => intro q _; simp [jsIndexOf]
  | cons a as ih =>
    intro q h
    have hax : ¬a = x := fun he => h (he ▸ List.mem_cons_self a as)
    have has : x ∉ as := fun hm => h (List.mem_cons_of_mem a hm)
    simp [jsIndexOf, hax, ih q has]

theorem spliceOne_at_first :
    ∀ (p : List String) (x : String) (q : List String),
      spliceOne (p ++ x :: q) p.length = p ++ q := by
  intro p x
  induction p with
  | nil => intro q; rfl
  | cons a as ih => intro q; simp [spliceOne, ih q]

theorem getD_mem_of_lt :
    ∀ (l : List String) (i : Nat), i < l.length → l.getD i "" ∈ l := by
  intro l i h
  rw [List.getD_eq_getD_get? l "" i, List.get?_eq_get h]
  exact List.get_mem l i h

theorem filterMap_congrOn {α β : Type} (l : List α) (f g : α → Option β)
    (h : ∀ a ∈ l, f a = g a) : l.filterMap f = l.filterMap g := by
  induction l with
  | nil => rfl
  | cons a as ih =>
    have ha := h a (List.mem_cons_self a as)
    have has : ∀ x ∈ as, f x = g x := fun x hx => h x (List.mem_cons_of_mem a hx)
    simp only [List.filterMap_cons, ha, ih has]

theorem find?_assoc_key :
    ∀ (l : Dir) (f : String) (e : DirEntry),
      (l.map Prod.fst).Nodup → (f, e) ∈ l →
      l.find? (fun x => x.1 == f) = some (f, e) := by
  intro l
  induction l with
  | nil => intro f e _ hm; cases hm
  | cons a as ih =>
    intro f e hnd hm
    rw [List.map_cons, List.nodup_cons] at hnd
    by_cases hk : a.1 = f
    · have he : a = (f, e) := by
        rcases List.mem_cons.mp hm with h1 | h2
        · exact h1.symm
        · exact absurd (hk ▸ List.mem_map_of_mem Prod.fst h2) hnd.1
      rw [List.find?_cons_of_pos _ (by simp [hk]), he]
    · have hm2 : (f, e) ∈ as := by
        rcases List.mem_cons.mp hm with h1 | h2
        · exact absurd (by rw [← h1]) hk
        · exact h2
      rw [List.find?_cons_of_neg _ (by simp [hk])]
      exact ih f e hnd.2 hm2


/-! ### Shared concrete inputs for witnesses -/

/-- A valid detail record used by concrete instantiations. -/
def sampleDetails : Details :=
  { clientName := "Acme Plumbing",
    googleReviewLink := "https://g.example/acme",
    logoUrl := none,
    primaryColor := "#112233",
    secondaryColor := "#445566" }

/-- A second valid detail record, with a supplied logo value. -/
def otherDetails : Details :=
  { clientName := "Beta Bakery",
    googleReviewLink := "https://g.example/beta",
    logoUrl := some "https://g.example/beta.png",
    primaryColor := "#abcdef",
    secondaryColor := "#fedcba" }

/-- A seed filesystem with no files at all. -/
def emptySeedFS : SeedFS := ⟨fun _ => none⟩

/-- The store with no client documents. -/
def emptyStore : Store := fun _ => none

/-- A stored document for client id acme1 with two reviews. -/
def docAcme : ClientDoc :=
  { clientId := "acme1", details := sampleDetails,
    reviews := some ["A", "B"] }

/-- A store holding exactly the document for acme1. -/
def storeAcme : Store :=
  fun k => if k = "acme1" then some docAcme else none

/-! ### C1: path containment -/

/-- C1 counterexample: the seed name traverses out of the data root
(the normalized path is the sibling directory dataEvil, not inside the
root), yet the `startsWith` check accepts it because the sibling path
extends the root string textually, and the loader returns the content
read outside the root instead of the blocked-path sentinel; moreover the
client-identifier path builder resolves a traversal id outside the root
with no rejection at all. -/
theorem c1_path_containment_counterexample :
    withinDataRoot (pathJoinSegs dataDirSegs "../dataEvil/x.json") = false ∧
    seedCheck (some "../dataEvil/x.json") = true ∧
    getReviewsFromFile
      ⟨fun p => if p = "/srv/app/dataEvil/x.json"
        then some (SeedFile.parsed (some ["outside data"])) else none⟩
      (some "../dataEvil/x.json") = ["outside data"] ∧
    ["outside data"] ≠ securitySentinel ∧
    withinDataRoot (getClientDataPathSegs "../evil") = false ∧
    getClientDataPath "../evil" = "/srv/app/evil.json" := by
  refine ⟨by decide, by decide, by decide, by decide, by decide, by decide⟩

/-- C1 (amended): the resolver rejects exactly the names whose joined,
normalized path fails the string-prefix test against the data root:
every rejected name receives the sentinel, and every name built from
plain segments (no empty, dot or dot-dot segment) resolves inside the
data root and is accepted.  Names that escape to sibling paths merely
extending the root string are accepted despite resolving outside the
root, and client identifiers are resolved with no check at all. -/
theorem c1_path_containment_amended :
    ∀ (fs : SeedFS) (name : String),
      (seedCheck (some name) = false →
        getReviewsFromFile fs (some name) = securitySentinel) ∧
      ((∀ s ∈ splitSlash name, s ≠ "" ∧ s ≠ "." ∧ s ≠ "..") →
        withinDataRoot (pathJoinSegs dataDirSegs name) = true ∧
        seedCheck (some name) = true) := by
  intro fs name
  constructor
  · intro hf
    simp [getReviewsFromFile, hf]
  · intro h
    have hne : name ≠ "" := by
      intro he
      subst he
      exact (h "" (by decide)).1 rfl
    have heff : effectiveSeedName (some name) = name := by
      simp [effectiveSeedName, hne]
    have hsegs : pathJoinSegs dataDirSegs name = dataDirSegs ++ splitSlash name := by
      unfold pathJoinSegs normalizeSegs
      rw [List.foldl_append]
      have hbase : List.foldl normStep [] dataDirSegs = dataDirSegs := by decide
      rw [hbase]
      exact foldl_normStep_clean (splitSlash name) dataDirSegs h
    constructor
    · unfold withinDataRoot
      rw [hsegs]
      exact isPrefixOf_append_self dataDirSegs (splitSlash name)
    · unfold seedCheck seedPath
      rw [heff, hsegs, renderAbs_append]
      exact jsStartsWith_append dataDirStr (renderAbs (splitSlash name))

/-- C1 witness: the amended theorem applied at concrete names; the name
with a dot-dot segment resolving above the root is rejected with the
sentinel, and a plain file name resolves inside the root and passes. -/
theorem c1_path_containment_witness :
    getReviewsFromFile emptySeedFS (some "..") = securitySentinel ∧
    (withinDataRoot (pathJoinSegs dataDirSegs "seed.json") = true ∧
     seedCheck (some "seed.json") = true) :=
  ⟨(c1_path_containment_amended emptySeedFS "..").1 (by decide),
   (c1_path_containment_amended emptySeedFS "seed.json").2 (by decide)⟩

/-! ### C2: update on a missing client -/

/-- C2: updating a client with no document performs no write, but the
handler answers with the literal status 4404 written at line 293 of
`server.js`, not with the shared NotFound status 404 that every other
handler uses; the spec describes the evident intent (404) and the code
carries a typo. -/
theorem c2_update_missing_status :
    ∀ (st : Store) (id : String) (body : Details),
      st id = none →
      updateClient st id body = ((4404, none), st) ∧ (4404 : Nat) ≠ 404 := by
  intro st id body h
  constructor
  · unfold updateClient
    rw [h]
  · decide

/-- C2 witness: the failing input evaluated concretely — a PUT for an
id with no document answers 4404 and leaves the store untouched. -/
theorem c2_update_missing_status_witness :
    updateClient emptyStore "ghost" sampleDetails = ((4404, none), emptyStore) ∧
    (4404 : Nat) ≠ 404 :=
  c2_update_missing_status emptyStore "ghost" sampleDetails rfl

/-! ### C3: the seed-loader fallback chain -/

/-- C3 counterexample: first, a named seed file that exists and parses
with an empty `reviews` array makes `load` return the empty sequence,
against the claim that the result is always non-empty; second, a named
file that exists but fails to parse jumps straight to the hard-coded
two-element list — the canonical default seed file (here present and
parsing with one review) is never consulted, against the claimed chain. -/
theorem c3_seed_fallback_counterexample :
    getReviewsFromFile
      ⟨fun p => if p = seedPath (some "s.json")
        then some (SeedFile.parsed (some [])) else none⟩
      (some "s.json") = [] ∧
    getReviewsFromFile
      ⟨fun p =>
        if p = seedPath (some "t.json") then some SeedFile.parseFail
        else if p = sampleReviewsPath
          then some (SeedFile.parsed (some ["D"])) else none⟩
      (some "t.json") = hardFallback ∧
    hardFallback ≠ ["D"] := by
  refine ⟨by decide, by decide, by decide⟩

/-- C3 (amended): `load` is total and its result can only be empty when
a consulted seed file stores an empty `reviews` array; the chain is:
a name failing the containment check yields the sentinel; a named file
that exists and parses with a `reviews` array yields that array, even
empty; a named file that exists but fails to parse yields the hard
two-element fallback directly, skipping the default file; a missing
named file or one without a `reviews` array falls back to the canonical
default file, whose array is returned when parsed, replaced by a
one-element list when the default parses without an array, and by the
two-element fallback when the default is missing or unreadable. -/
theorem c3_seed_fallback_amended :
    ∀ (fs : SeedFS) (name? : Option String),
      (getReviewsFromFile fs name? = [] →
        fs.lookup (seedPath name?) = some (SeedFile.parsed (some [])) ∨
        fs.lookup sampleReviewsPath = some (SeedFile.parsed (some []))) ∧
      (seedCheck name? = false →
        getReviewsFromFile fs name? = securitySentinel) ∧
      (seedCheck name? = true →
        (∀ l, fs.lookup (seedPath name?) = some (SeedFile.parsed (some l)) →
          getReviewsFromFile fs name? = l) ∧
        (fs.lookup (seedPath name?) = some SeedFile.parseFail →
          getReviewsFromFile fs name? = hardFallback) ∧
        ((fs.lookup (seedPath name?) = none ∨
          fs.lookup (seedPath name?) = some (SeedFile.parsed none)) →
          (∀ l, fs.lookup sampleReviewsPath = some (SeedFile.parsed (some l)) →
            getReviewsFromFile fs name? = l) ∧
          (fs.lookup sampleReviewsPath = some (SeedFile.parsed none) →
            getReviewsFromFile fs name? = ["Excellent service!"]) ∧
          ((fs.lookup sampleReviewsPath = none ∨
            fs.lookup sampleReviewsPath = some SeedFile.parseFail) →
            getReviewsFromFile fs name? = hardFallback))) := by
  intro fs name?
  refine ⟨?_, ?_, ?_⟩
  · intro hempty
    by_cases hc : seedCheck name? = true
    · unfold getReviewsFromFile at hempty
      rw [if_pos hc] at hempty
      cases hn : fs.lookup (seedPath name?) with
      | none =>
        rw [hn] at hempty
        cases hs : fs.lookup sampleReviewsPath with
        | none =>
          rw [hs] at hempty
          have hx : hardFallback = [] := hempty
          exact absurd hx (by decide)
        | some sf =>
          rw [hs] at hempty
          cases sf with
          | parseFail =>
            have hx : hardFallback = [] := hempty
            exact absurd hx (by decide)
          | parsed rv =>
            cases rv with
            | none =>
              have hx : ["Excellent service!"] = ([] : List String) := hempty
              exact absurd hx (by decide)
            | some l =>
              have hl : l = [] := hempty
              right; rw [hl]
      | some sf =>
        rw [hn] at hempty
        cases sf with
        | parseFail =>
          have hx : hardFallback = [] := hempty
          exact absurd hx (by decide)
        | parsed rv =>
          cases rv with
          | none =>
            cases hs : fs.lookup sampleReviewsPath with
            | none =>
              rw [hs] at hempty
              have hx : hardFallback = [] := hempty
              exact absurd hx (by decide)
            | some sf2 =>
              rw [hs] at hempty
              cases sf2 with
              | parseFail =>
                have hx : hardFallback = [] := hempty
                exact absurd hx (by decide)
              | parsed rv2 =>
                cases rv2 with
                | none =>
                  have hx : ["Excellent service!"] = ([] : List String) := hempty
                  exact absurd hx (by decide)
                | some l =>
                  have hl : l = [] := hempty
                  right; rw [hl]
          | some l =>
            have hl : l = [] := hempty
            left; rw [hl]
    · unfold getReviewsFromFile at hempty
      rw [if_neg hc] at hempty
      have hx : securitySentinel = [] := hempty
      exact absurd hx (by decide)
  · intro hf
    simp [getReviewsFromFile, hf]
  · intro hc
    refine ⟨?_, ?_, ?_⟩
    · intro l hn
      unfold getReviewsFromFile
      rw [if_pos hc, hn]
    · intro hn
      unfold getReviewsFromFile
      rw [if_pos hc, hn]
    · intro hn
      have hbranch :
          getReviewsFromFile fs name? =
            match fs.lookup sampleReviewsPath with
            | some (.parsed (some l)) => l
            | some (.parsed none) => ["Excellent service!"]
            | _ => hardFallback := by
        unfold getReviewsFromFile
        rw [if_pos hc]
        rcases hn with hn | hn
        · rw [hn]
        · rw [hn]
      refine ⟨?_, ?_, ?_⟩
      · intro l hs
        rw [hbranch, hs]
      · intro hs
        rw [hbranch, hs]
      · intro hs
        rcases hs with hs | hs
        · rw [hbranch, hs]
        · rw [hbranch, hs]

/-- C3 witness: the amended theorem at concrete filesystems — the
empty result traces back to an empty stored array, a parsed named file
is returned as is, and with no files at all the loader answers the hard
fallback. -/
theorem c3_seed_fallback_witness :
    (SeedFS.lookup
        ⟨fun p => if p = seedPath (some "s.json")
          then some (SeedFile.parsed (some [])) else none⟩
        (seedPath (some "s.json")) = some (SeedFile.parsed (some [])) ∨
      SeedFS.lookup
        ⟨fun p => if p = seedPath (some "s.json")
          then some (SeedFile.parsed (some [])) else none⟩
        sampleReviewsPath = some (SeedFile.parsed (some []))) ∧
    getReviewsFromFile
      ⟨fun p => if p = seedPath (some "u.json")
        then some (SeedFile.parsed (some ["U1"])) else none⟩
      (some "u.json") = ["U1"] ∧
    getReviewsFromFile emptySeedFS (some "v.json") = hardFallback :=
  ⟨(c3_seed_fallback_amended
      ⟨fun p => if p = seedPath (some "s.json")
        then some (SeedFile.parsed (some [])) else none⟩
      (some "s.json")).1 (by decide),
   ((c3_seed_fallback_amended
      ⟨fun p => if p = seedPath (some "u.json")
        then some (SeedFile.parsed (some ["U1"])) else none⟩
      (some "u.json")).2.2 (by decide)).1 ["U1"] (by decide),
   (((c3_seed_fallback_amended emptySeedFS
      (some "v.json")).2.2 (by decide)).2.2 (Or.inl rfl)).2.2 (Or.inl rfl)⟩

/-! ### C4: client creation -/

/-- C4: creating a client whose id already has a document answers 409
Conflict and leaves the store untouched; otherwise the created and
persisted document carries exactly the seed-loaded review list, in
order, and its clientId is the requested id (the body value named
clientId is the id itself, and the rest of the body is destructured
away from the stored details, so no client-supplied value can override
it). -/
theorem c4_create_client :
    ∀ (fs : SeedFS) (st : Store) (id : String) (d : Details)
      (seed? : Option String),
      (st id ≠ none → createClient fs st id d seed? = ((409, none), st)) ∧
      (st id = none →
        createClient fs st id d seed? =
          ((201, some { clientId := id, details := d,
                        reviews := some (getReviewsFromFile fs seed?) }),
           storeWrite st id
             { clientId := id, details := d,
               reviews := some (getReviewsFromFile fs seed?) }) ∧
        storeWrite st id
            { clientId := id, details := d,
              reviews := some (getReviewsFromFile fs seed?) } id =
          some { clientId := id, details := d,
                 reviews := some (getReviewsFromFile fs seed?) }) := by
  intro fs st id d seed?
  constructor
  · intro hne
    unfold createClient
    cases hx : st id with
    | none => exact absurd hx hne
    | some doc => rfl
  · intro hnone
    unfold createClient
    rw [hnone]
    exact ⟨rfl, by simp [storeWrite]⟩

/-- C4 witness: at a store already holding acme1 the create answers
409 and changes nothing; at the empty store the create persists a
document whose reviews equal the seed-loader output and whose clientId
is the requested id. -/
theorem c4_create_client_witness :
    createClient emptySeedFS storeAcme "acme1" otherDetails none =
      ((409, none), storeAcme) ∧
    (createClient emptySeedFS emptyStore "acme1" sampleDetails none =
      ((201, some { clientId := "acme1", details := sampleDetails,
                    reviews := some (getReviewsFromFile emptySeedFS none) }),
       storeWrite emptyStore "acme1"
         { clientId := "acme1", details := sampleDetails,
           reviews := some (getReviewsFromFile emptySeedFS none) }) ∧
     storeWrite emptyStore "acme1"
         { clientId := "acme1", details := sampleDetails,
           reviews := some (getReviewsFromFile emptySeedFS none) } "acme1" =
       some { clientId := "acme1", details := sampleDetails,
              reviews := some (getReviewsFromFile emptySeedFS none) }) :=
  ⟨(c4_create_client emptySeedFS storeAcme "acme1" otherDetails none).1
     (by decide),
   (c4_create_client emptySeedFS emptyStore "acme1" sampleDetails none).2 rfl⟩

/-! ### C5: adding a review prepends -/

/-- C5: for an existing client, adding a review answers 201 with the
added text, and the stored list afterwards is exactly the new text in
front of the previous list (so the first element of the listing is the
text, the length grew by one, and the old reviews follow in order); a
missing client answers 404 with no write. -/
theorem c5_add_review :
    ∀ (st : Store) (id text : String),
      (st id = none → addReview st id text = ((404, none), st)) ∧
      (∀ doc, st id = some doc →
        (addReview st id text).1 = (201, some text) ∧
        listReviews (addReview st id text).2 id =
          (200, some (text :: doc.reviews.getD [])) ∧
        listReviews st id = (200, some (doc.reviews.getD [])) ∧
        (text :: doc.reviews.getD []).length =
          (doc.reviews.getD []).length + 1) := by
  intro st id text
  constructor
  · intro hnone
    unfold addReview
    rw [hnone]
  · intro doc hdoc
    unfold addReview listReviews
    rw [hdoc]
    refine ⟨rfl, ?_, rfl, rfl⟩
    simp [storeWrite]

/-- C5 witness: adding to acme1, whose stored reviews are A then B,
yields the listing text, A, B, one longer than before. -/
theorem c5_add_review_witness :
    (addReview storeAcme "acme1" "Great service!!!").1 =
      (201, some "Great service!!!") ∧
    listReviews (addReview storeAcme "acme1" "Great service!!!").2 "acme1" =
      (200, some ["Great service!!!", "A", "B"]) ∧
    listReviews storeAcme "acme1" = (200, some ["A", "B"]) ∧
    (["Great service!!!", "A", "B"] : List String).length =
      (["A", "B"] : List String).length + 1 :=
  (c5_add_review storeAcme "acme1" "Great service!!!").2 docAcme (by decide)

/-! ### C6: deleting a review by text -/

/-- C6 counterexample: with an existing client whose list is A, B, the
empty text is not present in the list, yet the handler answers 400
(Review text is required.) from its falsy-body guard, not the NotFound
signal the claim requires for every text. -/
theorem c6_delete_review_counterexample :
    storeAcme "acme1" = some docAcme ∧
    ("" ∉ docAcme.reviews.getD []) ∧
    (deleteReview storeAcme "acme1" "").1 = (400, "Review text is required.") ∧
    (deleteReview storeAcme "acme1" "").1.1 ≠ 404 := by
  refine ⟨by decide, by decide, by decide, by decide⟩

/-- C6 (amended): an empty (falsy) text answers 400 before any lookup;
for every non-empty text the operation fails with NotFound when the
client is missing or the text is not present verbatim, and when the
text is present it removes exactly the first occurrence, leaving the
preceding and following reviews in their order. -/
theorem c6_delete_review :
    ∀ (st : Store) (id text : String),
      (text = "" → deleteReview st id text = ((400, "Review text is required."), st)) ∧
      (text ≠ "" →
        (st id = none →
          deleteReview st id text = ((404, "Client not found."), st)) ∧
        (∀ doc, st id = some doc → text ∉ doc.reviews.getD [] →
          deleteReview st id text = ((404, "Review not found."), st)) ∧
        (∀ doc p q, st id = some doc → doc.reviews.getD [] = p ++ text :: q →
          text ∉ p →
          deleteReview st id text =
            ((200, "Review deleted."),
             storeWrite st id { doc with reviews := some (p ++ q) }))) := by
  intro st id text
  constructor
  · intro he
    unfold deleteReview
    rw [if_pos he]
  · intro hne
    refine ⟨?_, ?_, ?_⟩
    · intro hnone
      unfold deleteReview
      rw [if_neg hne, hnone]
    · intro doc hdoc hnm
      unfold deleteReview
      rw [if_neg hne, hdoc]
      have hidx := jsIndexOf_of_not_mem (doc.reviews.getD []) text hnm
      simp [hidx]
    · intro doc p q hdoc hsplit hnp
      unfold deleteReview
      rw [if_neg hne, hdoc]
      have hidx : jsIndexOf (doc.reviews.getD []) text = some p.length := by
        rw [hsplit]
        exact jsIndexOf_first p text q hnp
      have hsp : spliceOne (doc.reviews.getD []) p.length = p ++ q := by
        rw [hsplit]
        exact spliceOne_at_first p text q
      simp [hidx, hsp]

/-- C6 witness: the empty text answers 400 at acme1; a missing client
answers NotFound; an absent text answers NotFound; deleting A from the
list A, B removes the first element and keeps B. -/
theorem c6_delete_review_witness :
    deleteReview storeAcme "acme1" "" = ((400, "Review text is required."), storeAcme) ∧
    deleteReview emptyStore "ghost" "A" = ((404, "Client not found."), emptyStore) ∧
    deleteReview storeAcme "acme1" "Z" = ((404, "Review not found."), storeAcme) ∧
    deleteReview storeAcme "acme1" "A" =
      ((200, "Review deleted."),
       storeWrite storeAcme "acme1" { docAcme with reviews := some ([] ++ ["B"]) }) :=
  ⟨(c6_delete_review storeAcme "acme1" "").1 rfl,
   ((c6_delete_review emptyStore "ghost" "A").2 (by decide)).1 rfl,
   ((c6_delete_review storeAcme "acme1" "Z").2 (by decide)).2.1 docAcme (by decide) (by decide),
   ((c6_delete_review storeAcme "acme1" "A").2 (by decide)).2.2 docAcme [] ["B"]
     (by decide) (by decide) (by decide)⟩

/-! ### C7: update leaves reviews unchanged -/

/-- C7: for an existing client, the update answers 200 and persists a
document whose reviews are exactly the previous reviews, whose
clientId is the id, and whose detail fields are those supplied in the
body (an absent logoUrl key keeps the stored one; a supplied one
overwrites). -/
theorem c7_update_preserves_reviews :
    ∀ (st : Store) (id : String) (body : Details) (doc : ClientDoc),
      st id = some doc →
      updateClient st id body =
        ((200, some { clientId := id,
                      details := mergeDetails doc.details body,
                      reviews := doc.reviews }),
         storeWrite st id
           { clientId := id,
             details := mergeDetails doc.details body,
             reviews := doc.reviews }) ∧
      (mergeDetails doc.details body).clientName = body.clientName ∧
      (mergeDetails doc.details body).googleReviewLink = body.googleReviewLink ∧
      (mergeDetails doc.details body).primaryColor = body.primaryColor ∧
      (mergeDetails doc.details body).secondaryColor = body.secondaryColor ∧
      (∀ v, body.logoUrl = some v →
        (mergeDetails doc.details body).logoUrl = some v) := by
  intro st id body doc hdoc
  refine ⟨?_, rfl, rfl, rfl, rfl, ?_⟩
  · unfold updateClient
    rw [hdoc]
  · intro v hv
    simp [mergeDetails, hv]

/-- C7 witness: updating acme1 with the second detail record keeps the
stored reviews A, B, keeps the id, and installs the supplied fields
including the supplied logo value. -/
theorem c7_update_preserves_reviews_witness :
    updateClient storeAcme "acme1" otherDetails =
      ((200, some { clientId := "acme1",
                    details := mergeDetails docAcme.details otherDetails,
                    reviews := docAcme.reviews }),
       storeWrite storeAcme "acme1"
         { clientId := "acme1",
           details := mergeDetails docAcme.details otherDetails,
           reviews := docAcme.reviews }) ∧
    (mergeDetails docAcme.details otherDetails).clientName = otherDetails.clientName ∧
    (mergeDetails docAcme.details otherDetails).googleReviewLink =
      otherDetails.googleReviewLink ∧
    (mergeDetails docAcme.details otherDetails).primaryColor =
      otherDetails.primaryColor ∧
    (mergeDetails docAcme.details otherDetails).secondaryColor =
      otherDetails.secondaryColor ∧
    (∀ v, otherDetails.logoUrl = some v →
      (mergeDetails docAcme.details otherDetails).logoUrl = some v) :=
  c7_update_preserves_reviews storeAcme "acme1" otherDetails docAcme (by decide)

/-! ### C8: random review selection -/

/-- C8: a missing client, a document without a reviews field, or an
empty list all answer 404; otherwise, for any random draw num / den in
the unit interval (num < den), the floored index num * length / den is
in range and the answer is an element of the current list. -/
theorem c8_random_review :
    ∀ (st : Store) (id : String) (num den : Nat),
      (st id = none → randomReview st id num den = (404, none)) ∧
      (∀ doc, st id = some doc → doc.reviews.getD [] = [] →
        randomReview st id num den = (404, none)) ∧
      (∀ doc l, st id = some doc → doc.reviews = some l → l ≠ [] →
        num < den →
        num * l.length / den < l.length ∧
        ∃ r, randomReview st id num den = (200, some r) ∧ r ∈ l) := by
  intro st id num den
  refine ⟨?_, ?_, ?_⟩
  · intro hnone
    unfold randomReview
    rw [hnone]
  · intro doc hdoc hemp
    unfold randomReview
    rw [hdoc]
    cases hr : doc.reviews with
    | none => simp [hr]
    | some l =>
      rw [hr] at hemp
      simp at hemp
      simp [hr, hemp]
  · intro doc l hdoc hrev hne hnd
    have hlen : 0 < l.length := List.length_pos.mpr hne
    have hden : 0 < den := Nat.lt_of_le_of_lt (Nat.zero_le num) hnd
    have hidx : num * l.length / den < l.length := by
      rw [Nat.div_lt_iff_lt_mul hden]
      calc num * l.length < den * l.length :=
            Nat.mul_lt_mul_of_lt_of_le hnd (Nat.le_refl _) hlen
        _ = l.length * den := Nat.mul_comm den l.length
    refine ⟨hidx, l.getD (num * l.length / den) "", ?_, ?_⟩
    · unfold randomReview
      rw [hdoc]
      simp [hrev, Nat.ne_of_gt hlen]
    · exact getD_mem_of_lt l (num * l.length / den) hidx

/-- C8 witness: on acme1 with reviews A, B the draw one half lands on
index one and answers B, a member of the list. -/
theorem c8_random_review_witness :
    (1 * (["A", "B"] : List String).length / 2 < (["A", "B"] : List String).length) ∧
    ∃ r, randomReview storeAcme "acme1" 1 2 = (200, some r) ∧ r ∈ ["A", "B"] :=
  (c8_random_review storeAcme "acme1" 1 2).2.2 docAcme ["A", "B"]
    (by decide) (by decide) (by decide) (by decide)

/-! ### C9: listing skips broken documents -/

/-- C9 counterexample: a directory with one file that parses and has
both fields, the clientId being the empty string, produces no summary
at all — the truthiness test `data.clientId && data.clientName` drops
it — whereas the claimed listing keeps one summary per parsing document
with both fields present. -/
theorem c9_list_clients_counterexample :
    listClients [("a.json", DirEntry.jsonDoc (some "") (some "Biz"))] = [] ∧
    listClientsSpec [("a.json", DirEntry.jsonDoc (some "") (some "Biz"))] =
      [("", "Biz")] ∧
    listClients [("a.json", DirEntry.jsonDoc (some "") (some "Biz"))] ≠
      listClientsSpec [("a.json", DirEntry.jsonDoc (some "") (some "Biz"))] := by
  refine ⟨by decide, by decide, by decide⟩

/-- C9 (amended): over a well-formed directory (distinct file names,
each json name rebuilding itself after the replace of its first
`.json`), the listing keeps exactly the files whose content parses with
truthy (non-empty) clientId and clientName values, skipping unreadable
files and files with missing or empty fields without error; when every
present field value is non-empty this coincides with one summary per
parsing document having both fields. -/
theorem c9_list_clients :
    ∀ dir : Dir,
      (dir.map Prod.fst).Nodup →
      (∀ f e, (f, e) ∈ dir → jsEndsWithJson f = true →
        stripJsonOnce f ++ ".json" = f) →
      listClients dir = listClientsTruthy dir ∧
      ((∀ f c n, (f, DirEntry.jsonDoc c n) ∈ dir →
          c ≠ some "" ∧ n ≠ some "") →
        listClients dir = listClientsSpec dir) := by
  intro dir hnd hrt
  have hmain : listClients dir = listClientsTruthy dir := by
    unfold listClients listClientsTruthy
    apply filterMap_congrOn
    intro e he
    obtain ⟨f, ent⟩ := e
    have hmem : (f, ent) ∈ dir := (List.mem_filter.mp he).1
    have hjson : jsEndsWithJson f = true := (List.mem_filter.mp he).2
    have hkey : stripJsonOnce f ++ ".json" = f := hrt f ent hmem hjson
    have hfind : dir.find? (fun x => x.1 == stripJsonOnce f ++ ".json") =
        some (f, ent) := by
      rw [hkey]
      exact find?_assoc_key dir f ent hnd hmem
    unfold getClientDataDir
    rw [hfind]
    cases ent with
    | invalidJson => rfl
    | jsonDoc c n => cases c <;> cases n <;> rfl
  constructor
  · exact hmain
  · intro hvals
    rw [hmain]
    unfold listClientsTruthy listClientsSpec
    apply filterMap_congrOn
    intro e he
    have hmem : e ∈ dir := (List.mem_filter.mp he).1
    cases hent : e.2 with
    | invalidJson => rfl
    | jsonDoc c n =>
      cases c with
      | none => rfl
      | some cv =>
        cases n with
        | none => rfl
        | some nv =>
          have hv := hvals e.1 (some cv) (some nv) (by rw [← hent]; exact hmem)
          have hcv : ¬cv = "" := fun h => hv.1 (by rw [h])
          have hnv : ¬nv = "" := fun h => hv.2 (by rw [h])
          simp [hcv, hnv]

/-- C9 witness: on a directory holding one valid document and one
unreadable file the listing answers exactly the one valid summary. -/
theorem c9_list_clients_witness :
    listClients [("good.json", DirEntry.jsonDoc (some "good") (some "Good Biz")),
                 ("bad.json", DirEntry.invalidJson)] =
      listClientsSpec [("good.json", DirEntry.jsonDoc (some "good") (some "Good Biz")),
                       ("bad.json", DirEntry.invalidJson)] ∧
    listClientsSpec [("good.json", DirEntry.jsonDoc (some "good") (some "Good Biz")),
                     ("bad.json", DirEntry.invalidJson)] = [("good", "Good Biz")] :=
  ⟨(c9_list_clients
      [("good.json", DirEntry.jsonDoc (some "good") (some "Good Biz")),
       ("bad.json", DirEntry.invalidJson)]
      (by decide)
      (by
        intro f e hm hj
        rcases List.mem_cons.mp hm with h | hm2
        · have hf : f = "good.json" := congrArg Prod.fst h
          rw [hf]
          decide
        · rcases List.mem_cons.mp hm2 with h | hm3
          · have hf : f = "bad.json" := congrArg Prod.fst h
            rw [hf]
            decide
          · cases hm3)).2
      (by
        intro f c n hm
        rcases List.mem_cons.mp hm with h | hm2
        · have h2 : DirEntry.jsonDoc c n =
              DirEntry.jsonDoc (some "good") (some "Good Biz") :=
            congrArg Prod.snd h
          injection h2 with hc hn
          rw [hc, hn]
          decide
        · rcases List.mem_cons.mp hm2 with h | hm3
          · have h2 : DirEntry.jsonDoc c n = DirEntry.invalidJson :=
              congrArg Prod.snd h
            cases h2
          · cases hm3),
   by decide⟩

/-! ### C10: failing mutations write nothing -/

/-- C10: every mutating operation that answers Conflict or NotFound
(and the 400 of an empty delete text) returns before any write, so the
resulting store is the one passed in: create on an existing id, update
and addReview and deleteReview on a missing client, and deleteReview
for a text not present in the list. -/
theorem c10_failures_atomic :
    (∀ (fs : SeedFS) (st : Store) (id : String) (d : Details)
        (s? : Option String) (doc : ClientDoc),
      st id = some doc → (createClient fs st id d s?).2 = st) ∧
    (∀ (st : Store) (id : String) (d : Details),
      st id = none → (updateClient st id d).2 = st) ∧
    (∀ (st : Store) (id text : String),
      st id = none → (addReview st id text).2 = st) ∧
    (∀ (st : Store) (id text : String),
      st id = none → (deleteReview st id text).2 = st) ∧
    (∀ (st : Store) (id text : String) (doc : ClientDoc),
      st id = some doc → text ∉ doc.reviews.getD [] →
      (deleteReview st id text).2 = st) := by
  refine ⟨?_, ?_, ?_, ?_, ?_⟩
  · intro fs st id d s? doc hdoc
    unfold createClient
    rw [hdoc]
  · intro st id d hnone
    unfold updateClient
    rw [hnone]
  · intro st id text hnone
    unfold addReview
    rw [hnone]
  · intro st id text hnone
    unfold deleteReview
    by_cases he : text = ""
    · rw [if_pos he]
    · rw [if_neg he, hnone]
  · intro st id text doc hdoc hnm
    unfold deleteReview
    by_cases he : text = ""
    · rw [if_pos he]
    · rw [if_neg he, hdoc]
      have hidx := jsIndexOf_of_not_mem (doc.reviews.getD []) text hnm
      simp [hidx]

/-- C10 witness: the five failing calls evaluated at concrete stores
each return the store they were given. -/
theorem c10_failures_atomic_witness :
    (createClient emptySeedFS storeAcme "acme1" otherDetails none).2 = storeAcme ∧
    (updateClient emptyStore "ghost" sampleDetails).2 = emptyStore ∧
    (addReview emptyStore "ghost" "nice").2 = emptyStore ∧
    (deleteReview emptyStore "ghost" "nice").2 = emptyStore ∧
    (deleteReview storeAcme "acme1" "Z").2 = storeAcme :=
  ⟨c10_failures_atomic.1 emptySeedFS storeAcme "acme1" otherDetails none docAcme
     (by decide),
   c10_failures_atomic.2.1 emptyStore "ghost" sampleDetails rfl,
   c10_failures_atomic.2.2.1 emptyStore "ghost" "nice" rfl,
   c10_failures_atomic.2.2.2.1 emptyStore "ghost" "nice" rfl,
   c10_failures_atomic.2.2.2.2 storeAcme "acme1" "Z" docAcme (by decide) (by decide)⟩
